import Mathlib

/-!
Shallow embedding of `src/assets/dl.py` (class `WordPressContentImageDownloader`):
the image-descriptor data model, the URL normalization shared by the three
extraction passes, the duplicate-removal pass, filename generation with
collision suffixes, the download bookkeeping and the post pagination loop,
together with theorems about the behaviour documented in the specification.
Python's sets of strings are modelled as lists (membership agrees), network
responses as explicit `Option`-valued functions (`none` = request exception).
-/

namespace DlPy

/-- Image descriptor built by the extraction passes (dl.py lines 106-113):
the url, post provenance, alt text, class list and element id. -/
structure ImageInfo where
  url : String
  post_title : String
  post_id : Int
  alt_text : String
  img_class : List String
  img_id : String
  deriving DecidableEq, Repr

/-- Duplicate-removal loop of `extract_all_content_images` (dl.py lines 254-257):
a descriptor is kept only when its url is not in `seen`; kept urls are added. -/
def dedupeAux : List ImageInfo → List String → List ImageInfo
  | [], _ => []
  | img :: rest, seen =>
    if img.url ∈ seen then dedupeAux rest seen
    else img :: dedupeAux rest (img.url :: seen)

/-- Duplicate-removal pass of `extract_all_content_images` (dl.py lines 250-262):
`unique_images` built with `seen_urls` starting empty. -/
def dedupe (l : List ImageInfo) : List ImageInfo := dedupeAux l []

lemma dedupeAux_cons_mem (a : ImageInfo) (rest : List ImageInfo) (seen : List String)
    (h : a.url ∈ seen) : dedupeAux (a :: rest) seen = dedupeAux rest seen := by
  show (if a.url ∈ seen then dedupeAux rest seen
        else a :: dedupeAux rest (a.url :: seen)) = dedupeAux rest seen
  exact if_pos h

lemma dedupeAux_cons_not_mem (a : ImageInfo) (rest : List ImageInfo) (seen : List String)
    (h : a.url ∉ seen) :
    dedupeAux (a :: rest) seen = a :: dedupeAux rest (a.url :: seen) := by
  show (if a.url ∈ seen then dedupeAux rest seen
        else a :: dedupeAux rest (a.url :: seen)) = a :: dedupeAux rest (a.url :: seen)
  exact if_neg h

lemma mem_map_url_dedupeAux (l : List ImageInfo) (seen : List String) (u : String) :
    u ∈ (dedupeAux l seen).map ImageInfo.url ↔
      u ∈ l.map ImageInfo.url ∧ u ∉ seen := by
  induction l generalizing seen with
  | nil => simp [dedupeAux]
  | cons a rest ih =>
    by_cases h : a.url ∈ seen
    · rw [dedupeAux_cons_mem a rest seen h]
      simp only [List.map_cons, List.mem_cons, ih]
      constructor
      · rintro ⟨h1, h2⟩
        exact ⟨Or.inr h1, h2⟩
      · rintro ⟨h1 | h1, h2⟩
        · exact absurd (h1 ▸ h) h2
        · exact ⟨h1, h2⟩
    · rw [dedupeAux_cons_not_mem a rest seen h]
      simp only [List.map_cons, List.mem_cons, ih]
      constructor
      · rintro (h1 | ⟨h1, h2⟩)
        · exact ⟨Or.inl h1, h1 ▸ h⟩
        · exact ⟨Or.inr h1, fun hu => h2 (Or.inr hu)⟩
      · rintro ⟨h1 | h1, h2⟩
        · exact Or.inl h1
        · by_cases hu : u = a.url
          · exact Or.inl hu
          · exact Or.inr ⟨h1, fun hor => hor.elim hu h2⟩

lemma nodup_dedupeAux (l : List ImageInfo) (seen : List String) :
    ((dedupeAux l seen).map ImageInfo.url).Nodup := by
  induction l generalizing seen with
  | nil => simp [dedupeAux]
  | cons a rest ih =>
    by_cases h : a.url ∈ seen
    · rw [dedupeAux_cons_mem a rest seen h]
      exact ih seen
    · rw [dedupeAux_cons_not_mem a rest seen h]
      simp only [List.map_cons, List.nodup_cons]
      refine ⟨fun hmem => ?_, ih _⟩
      rw [mem_map_url_dedupeAux] at hmem
      exact hmem.2 (List.mem_cons_self _ _)

lemma sublist_dedupeAux (l : List ImageInfo) (seen : List String) :
    (dedupeAux l seen).Sublist l := by
  induction l generalizing seen with
  | nil => simp [dedupeAux]
  | cons a rest ih =>
    by_cases h : a.url ∈ seen
    · rw [dedupeAux_cons_mem a rest seen h]
      exact (ih seen).trans (List.sublist_cons_self a rest)
    · rw [dedupeAux_cons_not_mem a rest seen h]
      exact List.Sublist.cons₂ a (ih _)

lemma find?_dedupeAux (l : List ImageInfo) (seen : List String) :
    ∀ d ∈ dedupeAux l seen, l.find? (fun x => x.url == d.url) = some d := by
  induction l generalizing seen with
  | nil => simp [dedupeAux]
  | cons a rest ih =>
    intro d hd
    by_cases h : a.url ∈ seen
    · rw [dedupeAux_cons_mem a rest seen h] at hd
      have hdu : d.url ∉ seen := by
        have := (mem_map_url_dedupeAux rest seen d.url).mp
          (List.mem_map_of_mem ImageInfo.url hd)
        exact this.2
      have hne : ¬((fun x : ImageInfo => x.url == d.url) a = true) := by
        simp only [beq_iff_eq]
        intro heq
        exact hdu (heq ▸ h)
      rw [List.find?_cons_of_neg (p := fun x : ImageInfo => x.url == d.url) _ hne]
      exact ih seen d hd
    · rw [dedupeAux_cons_not_mem a rest seen h] at hd
      rcases (List.mem_cons).mp hd with rfl | hd'
      · rw [List.find?_cons_of_pos (p := fun x : ImageInfo => x.url == d.url) _ (by simp)]
      · have hdu : d.url ∉ a.url :: seen := by
          have := (mem_map_url_dedupeAux rest (a.url :: seen) d.url).mp
            (List.mem_map_of_mem ImageInfo.url hd')
          exact this.2
        have hne : ¬((fun x : ImageInfo => x.url == d.url) a = true) := by
          simp only [beq_iff_eq]
          intro heq
          exact hdu (heq ▸ List.mem_cons_self _ _)
        rw [List.find?_cons_of_neg (p := fun x : ImageInfo => x.url == d.url) _ hne]
        exact ih _ d hd'

lemma length_dedupeAux (l : List ImageInfo) (seen : List String) :
    (dedupeAux l seen).length =
      ((l.map ImageInfo.url).toFinset \ seen.toFinset).card := by
  have h1 : ((dedupeAux l seen).map ImageInfo.url).toFinset =
      (l.map ImageInfo.url).toFinset \ seen.toFinset := by
    ext u
    simp only [List.mem_toFinset, Finset.mem_sdiff]
    exact mem_map_url_dedupeAux l seen u
  calc (dedupeAux l seen).length
      = ((dedupeAux l seen).map ImageInfo.url).length := (List.length_map _ _).symm
    _ = ((dedupeAux l seen).map ImageInfo.url).toFinset.card :=
        (List.toFinset_card_of_nodup (nodup_dedupeAux l seen)).symm
    _ = ((l.map ImageInfo.url).toFinset \ seen.toFinset).card := by rw [h1]

/-- C1: `dedupe` (the duplicate-removal pass of `extract_all_content_images`)
returns exactly as many descriptors as there are distinct urls, keeps for each
distinct url the first-seen descriptor (`find?` returns it), preserves the
input order (sublist), covers every input url, and its output urls are
pairwise distinct. -/
theorem dedupe_first_occurrence (l : List ImageInfo) :
    ((dedupe l).map ImageInfo.url).Nodup ∧
    (dedupe l).Sublist l ∧
    (∀ d ∈ dedupe l, l.find? (fun x => x.url == d.url) = some d) ∧
    (∀ u, u ∈ (dedupe l).map ImageInfo.url ↔ u ∈ l.map ImageInfo.url) ∧
    (dedupe l).length = (l.map ImageInfo.url).toFinset.card := by
  refine ⟨nodup_dedupeAux l [], sublist_dedupeAux l [], find?_dedupeAux l [], ?_, ?_⟩
  · intro u
    rw [dedupe, mem_map_url_dedupeAux]
    simp
  · rw [dedupe, length_dedupeAux]
    simp

/-- Concrete descriptor used in witnesses. -/
def wInfoA : ImageInfo := ⟨"https://e.com/a.png", "p", 1, "", [], ""⟩

/-- Concrete descriptor used in witnesses, same url as `wInfoA`. -/
def wInfoB : ImageInfo := ⟨"https://e.com/a.png", "q", 2, "", [], ""⟩

/-- Witness for C1 at a concrete two-element list with a duplicated url. -/
theorem dedupe_first_occurrence_witness :
    [wInfoA, wInfoB].find? (fun x => x.url == wInfoA.url) = some wInfoA :=
  (dedupe_first_occurrence [wInfoA, wInfoB]).2.2.1 wInfoA (by decide)

/-- Models Python's `str.startswith` for a single pattern: the pattern's
characters are a prefix of the string's. -/
def strStartsWith (s p : String) : Bool := p.data.isPrefixOf s.data

/-- Models `urllib.parse`'s scheme recognition: the text before the first `:`
is a scheme when it is nonempty, starts with a letter and uses only letters,
digits, `+`, `-`, `.`; the scheme is lowercased.  Returns the (scheme, rest)
pair, or `none` when the string has no scheme. -/
def pySchemeSplit (s : String) : Option (String × String) :=
  let cs := s.data
  let pre := cs.takeWhile (· ≠ ':')
  if pre.length < cs.length && !pre.isEmpty && pre.headI.isAlpha &&
      pre.all (fun c => c.isAlpha || c.isDigit || c == '+' || c == '-' || c == '.')
  then some (⟨pre.map Char.toLower⟩, ⟨cs.drop (pre.length + 1)⟩)
  else none

/-- Splits a string that begins with `//` into its netloc (up to the next `/`)
and the remainder starting at that `/`, as `urllib.parse` does. -/
def splitNetloc (r : String) : String × String :=
  (⟨(r.data.drop 2).takeWhile (· ≠ '/')⟩, ⟨(r.data.drop 2).dropWhile (· ≠ '/')⟩)

/-- Directory part of a base path for relative-reference resolution: the base
path up to and including its last `/`; an empty base path (site root) merges
as `/`, as in `urllib.parse.urljoin`. -/
def mergeDir (bpath : String) : String :=
  if bpath = "" then "/"
  else ⟨(bpath.data.reverse.dropWhile (· ≠ '/')).reverse⟩

/-- The schemes for which `urllib.parse.urljoin` performs relative resolution
(`uses_relative` in `urllib/parse.py`). -/
def uses_relative : List String :=
  ["", "ftp", "http", "gopher", "nntp", "imap", "wais", "file", "https",
   "shttp", "mms", "prospero", "rtsp", "rtspu", "sftp", "svn", "svn+ssh",
   "ws", "wss"]

/-- Models `urllib.parse.urljoin` for hierarchical URLs: an input with its own
scheme different from the base's is returned unchanged; an input beginning
with `//` takes the base's scheme; an input beginning with `/` replaces the
base's path; any other input is merged onto the directory of the base's path.
The query/fragment of the input are carried inside its path here, and `.`
and `..` segments are not resolved (the program's URLs do not contain them). -/
def urljoin (base url : String) : String :=
  if base = "" then url
  else if url = "" then base
  else
    let bsplit := match pySchemeSplit base with
      | some sr => sr
      | none => ("", base)
    let bscheme := bsplit.1
    let bparts := if strStartsWith bsplit.2 "//" then splitNetloc bsplit.2
      else ("", bsplit.2)
    let usplit := match pySchemeSplit url with
      | some sr => sr
      | none => (bscheme, url)
    let scheme := usplit.1
    let urest := usplit.2
    if scheme ≠ bscheme ∨ scheme ∉ uses_relative then url
    else
      let schemePre := if scheme = "" then "" else scheme ++ ":"
      if strStartsWith urest "//" then schemePre ++ urest
      else if urest = "" then base
      else if strStartsWith urest "/" then
        schemePre ++ "//" ++ bparts.1 ++ urest
      else schemePre ++ "//" ++ bparts.1 ++ mergeDir bparts.2 ++ urest

/-- URL normalization applied to every extracted `src` (dl.py lines 92-97; the
same block is repeated verbatim at lines 146-151 and 198-203): protocol-less
`//…` URLs get `https:` prefixed, `/…` and scheme-less URLs are resolved
against the site url, fully qualified `http(s)://` URLs pass unchanged. -/
def normalizeUrl (siteUrl src : String) : String :=
  if strStartsWith src "//" then "https:" ++ src
  else if strStartsWith src "/" then urljoin siteUrl src
  else if !(strStartsWith src "http://" || strStartsWith src "https://") then
    urljoin siteUrl src
  else src

lemma strStartsWith_head (s p : String) (h : strStartsWith s p = true) :
    ∀ c cs, p.data = c :: cs → ∃ ds, s.data = c :: ds := by
  rw [strStartsWith, List.isPrefixOf_iff_prefix] at h
  rcases h with ⟨t, ht⟩
  intro c cs hc
  rw [hc] at ht
  exact ⟨cs ++ t, by rw [← ht]; simp⟩

lemma not_slash_of_http (src : String) (h : strStartsWith src "http://" = true) :
    strStartsWith src "/" = false := by
  rcases strStartsWith_head src "http://" h 'h' "ttp://".data rfl with ⟨ds, hds⟩
  cases hsl : strStartsWith src "/"
  · rfl
  · rcases strStartsWith_head src "/" hsl '/' [] rfl with ⟨es, hes⟩
    rw [hds] at hes
    exact absurd (List.head_eq_of_cons_eq hes) (by decide)

lemma not_slash_of_https (src : String) (h : strStartsWith src "https://" = true) :
    strStartsWith src "/" = false := by
  rcases strStartsWith_head src "https://" h 'h' "ttps://".data rfl with ⟨ds, hds⟩
  cases hsl : strStartsWith src "/"
  · rfl
  · rcases strStartsWith_head src "/" hsl '/' [] rfl with ⟨es, hes⟩
    rw [hds] at hes
    exact absurd (List.head_eq_of_cons_eq hes) (by decide)

/-- C2: the normalization branches of `extract_images_from_content` (and the
identical blocks in the other two passes): `//…` becomes `https:` plus the
URL, `/…` and scheme-less URLs are resolved against the site base URL via
`urljoin`, fully qualified `http(s)` URLs pass through unchanged; concretely,
`/wp-content/uploads/2024/a.png` on site `https://example.com` normalizes to
`https://example.com/wp-content/uploads/2024/a.png`, and a `//` URL keeps its
own host. -/
theorem normalize_url_cases (siteUrl src : String) :
    (strStartsWith src "//" = true → normalizeUrl siteUrl src = "https:" ++ src) ∧
    (strStartsWith src "//" = false → strStartsWith src "/" = true →
      normalizeUrl siteUrl src = urljoin siteUrl src) ∧
    (strStartsWith src "/" = false → strStartsWith src "http://" = false →
      strStartsWith src "https://" = false →
      normalizeUrl siteUrl src = urljoin siteUrl src) ∧
    (strStartsWith src "http://" = true ∨ strStartsWith src "https://" = true →
      normalizeUrl siteUrl src = src) ∧
    normalizeUrl "https://example.com" "/wp-content/uploads/2024/a.png" =
      "https://example.com/wp-content/uploads/2024/a.png" ∧
    normalizeUrl siteUrl "//cdn.example.net/i.png" =
      "https://cdn.example.net/i.png" := by
  refine ⟨?_, ?_, ?_, ?_, by decide, ?_⟩
  · intro h
    rw [normalizeUrl, if_pos h]
  · intro h1 h2
    rw [normalizeUrl, if_neg (by rw [h1]; decide), if_pos h2]
  · intro h1 h2 h3
    have hdd : strStartsWith src "//" = false := by
      cases hdd : strStartsWith src "//"
      · rfl
      · rcases strStartsWith_head src "//" hdd '/' "/".data rfl with ⟨ds, hds⟩
        have hs : strStartsWith src "/" = true := by
          rw [strStartsWith, List.isPrefixOf_iff_prefix, hds]
          exact ⟨ds, rfl⟩
        rw [hs] at h1
        exact absurd h1 (by decide)
    rw [normalizeUrl, if_neg (by rw [hdd]; decide),
      if_neg (by rw [h1]; decide), if_pos (by rw [h2, h3]; rfl)]
  · intro h
    have hsl : strStartsWith src "/" = false := by
      rcases h with h | h
      · exact not_slash_of_http src h
      · exact not_slash_of_https src h
    have hdd : strStartsWith src "//" = false := by
      cases hdd : strStartsWith src "//"
      · rfl
      · rcases strStartsWith_head src "//" hdd '/' "/".data rfl with ⟨ds, hds⟩
        have hs : strStartsWith src "/" = true := by
          rw [strStartsWith, List.isPrefixOf_iff_prefix, hds]
          exact ⟨ds, rfl⟩
        rw [hs] at hsl
        exact absurd hsl (by decide)
    rw [normalizeUrl, if_neg (by rw [hdd]; decide),
      if_neg (by rw [hsl]; decide),
      if_neg (by rcases h with h | h <;> simp [h])]
  · rw [normalizeUrl,
      if_pos (show strStartsWith "//cdn.example.net/i.png" "//" = true by decide)]
    decide

/-- Witness for C2: the `//`-branch applied at a concrete input. -/
theorem normalize_url_cases_witness :
    normalizeUrl "https://example.com" "//cdn.example.net/i.png" =
      "https:" ++ "//cdn.example.net/i.png" :=
  (normalize_url_cases "https://example.com" "//cdn.example.net/i.png").1 (by decide)

/-- Decimal digit character, as produced by Python's `str(int)`. -/
def decDigitChar : Nat → Char
  | 0 => '0' | 1 => '1' | 2 => '2' | 3 => '3' | 4 => '4'
  | 5 => '5' | 6 => '6' | 7 => '7' | 8 => '8' | _ => '9'

/-- Decimal digit list of `n`, most significant first; `fuel ≥ n + 1` always
suffices since the argument shrinks by a factor of ten. -/
def decDigitsAux : Nat → Nat → List Char
  | 0, _ => []
  | fuel + 1, n =>
    if n < 10 then [decDigitChar n]
    else decDigitsAux fuel (n / 10) ++ [decDigitChar (n % 10)]

/-- Models Python's `str(n)` for a natural number: its decimal digits. -/
def decStr (n : Nat) : String := ⟨decDigitsAux (n + 1) n⟩

/-- Value of a decimal digit character, used only to invert `decStr`. -/
def decVal : Char → Nat
  | '0' => 0 | '1' => 1 | '2' => 2 | '3' => 3 | '4' => 4
  | '5' => 5 | '6' => 6 | '7' => 7 | '8' => 8 | _ => 9

/-- Decimal parser, a left inverse of the digit renderer. -/
def parseDec (cs : List Char) : Nat := cs.foldl (fun a c => a * 10 + decVal c) 0

lemma decVal_decDigitChar : ∀ n, n < 10 → decVal (decDigitChar n) = n := by decide

lemma parseDec_decDigitsAux : ∀ fuel n, n < fuel →
    parseDec (decDigitsAux fuel n) = n := by
  intro fuel
  induction fuel with
  | zero => intro n h; exact absurd h (Nat.not_lt_zero n)
  | succ fuel ih =>
    intro n h
    by_cases h10 : n < 10
    · have he : decDigitsAux (fuel + 1) n = [decDigitChar n] := by
        show (if n < 10 then [decDigitChar n]
              else decDigitsAux fuel (n / 10) ++ [decDigitChar (n % 10)]) = _
        exact if_pos h10
      rw [he]
      show (0 * 10 + decVal (decDigitChar n)) = n
      rw [decVal_decDigitChar n h10]
      omega
    · have he : decDigitsAux (fuel + 1) n =
          decDigitsAux fuel (n / 10) ++ [decDigitChar (n % 10)] := by
        show (if n < 10 then [decDigitChar n]
              else decDigitsAux fuel (n / 10) ++ [decDigitChar (n % 10)]) = _
        exact if_neg h10
      have hdiv : n / 10 < fuel := by
        have h1 : n / 10 < n := Nat.div_lt_self (by omega) (by omega)
        omega
      rw [he, parseDec, List.foldl_append]
      have hv : decVal (decDigitChar (n % 10)) = n % 10 :=
        decVal_decDigitChar (n % 10) (Nat.mod_lt n (by omega))
      show (parseDec (decDigitsAux fuel (n / 10))) * 10 + decVal (decDigitChar (n % 10)) = n
      rw [ih (n / 10) hdiv, hv]
      omega

lemma decStr_injective (a b : Nat) (h : decStr a = decStr b) : a = b := by
  have hd : (decStr a).data = (decStr b).data := by rw [h]
  have ha : parseDec (decStr a).data = a := parseDec_decDigitsAux (a + 1) a (by omega)
  have hb : parseDec (decStr b).data = b := parseDec_decDigitsAux (b + 1) b (by omega)
  rw [← ha, ← hb, hd]

lemma suffixed_injective (name ext : String) (c₁ c₂ : Nat)
    (h : name ++ "_" ++ decStr c₁ ++ ext = name ++ "_" ++ decStr c₂ ++ ext) :
    c₁ = c₂ := by
  have hd : ((name ++ "_") ++ decStr c₁ ++ ext).data =
      ((name ++ "_") ++ decStr c₂ ++ ext).data := by
    rw [show (name ++ "_") ++ decStr c₁ ++ ext = name ++ "_" ++ decStr c₁ ++ ext from rfl,
      show (name ++ "_") ++ decStr c₂ ++ ext = name ++ "_" ++ decStr c₂ ++ ext from rfl, h]
  simp only [String.data_append, List.append_assoc] at hd
  have h1 := List.append_cancel_left hd
  have h2 := List.append_cancel_left h1
  have h3 := List.append_cancel_right h2
  exact decStr_injective c₁ c₂ (String.ext h3)

/-- Pigeonhole for collision suffixes: among the first `used.length + 1`
candidate names `name_1ext … name_(L+1)ext` at least one is unused. -/
lemma exists_fresh_suffix (used : List String) (name ext : String) :
    ∃ c, 1 ≤ c ∧ c ≤ used.length + 1 ∧
      (name ++ "_" ++ decStr c ++ ext) ∉ used := by
  by_contra hcon
  push_neg at hcon
  have hmaps : ∀ c ∈ Finset.Icc 1 (used.length + 1),
      (name ++ "_" ++ decStr c ++ ext) ∈ used.toFinset := by
    intro c hc
    rcases Finset.mem_Icc.mp hc with ⟨h1, h2⟩
    rw [List.mem_toFinset]
    exact hcon c h1 h2
  have hinj : Set.InjOn (fun c => name ++ "_" ++ decStr c ++ ext)
      ↑(Finset.Icc 1 (used.length + 1)) := by
    intro a _ b _ hab
    exact suffixed_injective name ext a b hab
  have hcard := Finset.card_le_card_of_injOn _ hmaps hinj
  rw [Nat.card_Icc] at hcard
  have hle : used.toFinset.card ≤ used.length := used.toFinset_card_le
  omega

/-- Collision loop of `generate_filename` (dl.py lines 290-293): starting at
`counter`, return the first counter whose suffixed name is not yet used. -/
def findFree (used : List String) (name ext : String) : Nat → Nat → Nat
  | 0, c => c
  | fuel + 1, c =>
    if (name ++ "_" ++ decStr c ++ ext) ∈ used then
      findFree used name ext fuel (c + 1)
    else c

lemma findFree_spec (used : List String) (name ext : String) : ∀ fuel c,
    (∃ j, c ≤ j ∧ j < c + fuel ∧ (name ++ "_" ++ decStr j ++ ext) ∉ used) →
    (name ++ "_" ++ decStr (findFree used name ext fuel c) ++ ext) ∉ used ∧
    c ≤ findFree used name ext fuel c ∧
    ∀ j, c ≤ j → j < findFree used name ext fuel c →
      (name ++ "_" ++ decStr j ++ ext) ∈ used := by
  intro fuel
  induction fuel with
  | zero =>
    rintro c ⟨j, hj1, hj2, _⟩
    omega
  | succ fuel ih =>
    intro c hex
    by_cases hc : (name ++ "_" ++ decStr c ++ ext) ∈ used
    · have he : findFree used name ext (fuel + 1) c = findFree used name ext fuel (c + 1) := by
        show (if (name ++ "_" ++ decStr c ++ ext) ∈ used then
              findFree used name ext fuel (c + 1) else c) = _
        exact if_pos hc
      rw [he]
      have hex' : ∃ j, c + 1 ≤ j ∧ j < (c + 1) + fuel ∧
          (name ++ "_" ++ decStr j ++ ext) ∉ used := by
        rcases hex with ⟨j, h1, h2, h3⟩
        by_cases hjc : j = c
        · exact absurd (hjc ▸ h3) (by simp [hc])
        · exact ⟨j, by omega, by omega, h3⟩
      obtain ⟨ha, hb, hm⟩ := ih (c + 1) hex'
      refine ⟨ha, by omega, ?_⟩
      intro j hj1 hj2
      by_cases hjc : j = c
      · exact hjc ▸ hc
      · exact hm j (by omega) hj2
    · have he : findFree used name ext (fuel + 1) c = c := by
        show (if (name ++ "_" ++ decStr c ++ ext) ∈ used then
              findFree used name ext fuel (c + 1) else c) = _
        exact if_neg hc
      rw [he]
      exact ⟨hc, Nat.le_refl c, fun j h1 h2 => by omega⟩

/-- Models Python's `str.split(sep)[0]`: the text before the first occurrence
of `sep` (the whole string when `sep` does not occur). -/
def stripAfter (s : String) (c : Char) : String := ⟨s.data.takeWhile (· ≠ c)⟩

/-- Path component of `urllib.parse.urlparse`: fragment and query are cut at
the first `#` and `?`, a scheme prefix and a `//netloc` are removed. -/
def pyUrlparsePath (url : String) : String :=
  let s := stripAfter (stripAfter url '#') '?'
  let rest := match pySchemeSplit s with
    | some sr => sr.2
    | none => s
  if strStartsWith rest "//" then (splitNetloc rest).2 else rest

/-- Models `os.path.basename`: everything after the last `/`. -/
def pyBasename (p : String) : String :=
  ⟨(p.data.reverse.takeWhile (· ≠ '/')).reverse⟩

/-- Models Python's `str.isalnum` on the characters this development uses:
exactly Python's predicate on ASCII, plus the Latin-1 alphanumerics
(`ª µ º ² ³ ¹` and the letter range U+00C0–U+00FF minus `×` and `÷`).
Python's predicate additionally accepts alphanumerics beyond Latin-1, which
no theorem here depends on. -/
def pyIsAlnum (c : Char) : Bool :=
  c.isAlphanum ||
  (decide (0xC0 ≤ c.toNat) && decide (c.toNat ≤ 0xFF) &&
    !(c.toNat == 0xD7) && !(c.toNat == 0xF7)) ||
  c.toNat == 0xAA || c.toNat == 0xB5 || c.toNat == 0xBA ||
  c.toNat == 0xB2 || c.toNat == 0xB3 || c.toNat == 0xB9

/-- The characters `generate_filename` keeps (dl.py line 285):
`c.isalnum() or c in '.-_'`. -/
def keptChar (c : Char) : Bool := pyIsAlnum c || c == '.' || c == '-' || c == '_'

/-- dl.py lines 269-274: path of the url, basename, text before any `?`. -/
def rawName (url : String) : String := stripAfter (pyBasename (pyUrlparsePath url)) '?'

/-- dl.py lines 277-278: an empty (or `/`) name falls back to `image.jpg`. -/
def defaultedName (r : String) : String := if r = "" || r = "/" then "image.jpg" else r

/-- dl.py lines 281-282: a name without a `.` gets `.jpg` appended. -/
def extName (r : String) : String := if r.data.contains '.' then r else r ++ ".jpg"

/-- dl.py line 285: keep only alphanumeric characters and `.`, `-`, `_`. -/
def sanitizeName (r : String) : String := ⟨r.data.filter keptChar⟩

/-- The sanitized candidate filename of a url (dl.py lines 269-285), before
collision handling. -/
def baseFilename (url : String) : String :=
  sanitizeName (extName (defaultedName (rawName url)))

/-- Models `os.path.splitext` on slash-free names: split before the last `.`,
except that a name whose characters before that `.` are all dots (such as
`.bashrc` or `...`) has no extension. -/
def splitext (s : String) : String × String :=
  match s.data.reverse.dropWhile (· ≠ '.') with
  | [] => (s, "")
  | d :: preR =>
    if preR.all (· == '.') then (s, "")
    else (⟨preR.reverse⟩, ⟨d :: (s.data.reverse.takeWhile (· ≠ '.')).reverse⟩)

lemma splitext_data (s : String) :
    (splitext s).1.data ++ (splitext s).2.data = s.data := by
  have hsplit : s.data.reverse.takeWhile (· ≠ '.') ++
      s.data.reverse.dropWhile (· ≠ '.') = s.data.reverse :=
    List.takeWhile_append_dropWhile _ _
  rcases hdw : s.data.reverse.dropWhile (· ≠ '.') with _ | ⟨d, preR⟩
  · rw [splitext, hdw]
    simp
  · rw [splitext, hdw]
    by_cases hall : (preR.all (· == '.')) = true
    · simp [hall]
    · simp only [hall, if_false, Bool.false_eq_true]
      show preR.reverse ++ (d :: (s.data.reverse.takeWhile (· ≠ '.')).reverse) = s.data
      rw [hdw] at hsplit
      calc preR.reverse ++ (d :: (s.data.reverse.takeWhile (· ≠ '.')).reverse)
          = (s.data.reverse.takeWhile (· ≠ '.') ++ (d :: preR)).reverse := by
            simp
        _ = s.data.reverse.reverse := by rw [hsplit]
        _ = s.data := by simp

/-- `generate_filename` (dl.py lines 264-298) without its registration side
effect: derive the sanitized candidate from the url; on a collision with
`used`, append the first unused integer suffix before the extension.
The caller registers the returned name (see `assignFilenames` /
`download_image`).  The unbounded Python `while` loop is run with fuel
`used.length + 1`, which `exists_fresh_suffix` proves sufficient. -/
def generate_filename (used : List String) (info : ImageInfo) : String :=
  if baseFilename info.url ∈ used then
    (splitext (baseFilename info.url)).1 ++ "_" ++
      decStr (findFree used (splitext (baseFilename info.url)).1
        (splitext (baseFilename info.url)).2 (used.length + 1) 1) ++
      (splitext (baseFilename info.url)).2
  else baseFilename info.url

/-- One run of filename generation: each returned name is registered into the
used set before the next descriptor is processed, exactly as
`self.used_filenames.add(filename)` does inside `generate_filename`. -/
def assignFilenames (used : List String) : List ImageInfo → List String
  | [] => []
  | i :: rest =>
    generate_filename used i :: assignFilenames (generate_filename used i :: used) rest

/-- Whatever branch is taken, `generate_filename` returns a name not yet in
`used`. -/
lemma generate_filename_not_mem (used : List String) (info : ImageInfo) :
    generate_filename used info ∉ used := by
  by_cases h : baseFilename info.url ∈ used
  · rw [generate_filename, if_pos h]
    rcases exists_fresh_suffix used (splitext (baseFilename info.url)).1
      (splitext (baseFilename info.url)).2 with ⟨c, h1, h2, h3⟩
    exact (findFree_spec used _ _ (used.length + 1) 1 ⟨c, h1, by omega, h3⟩).1
  · rw [generate_filename, if_neg h]
    exact h

/-- On a collision, the returned name carries the first unused integer suffix. -/
lemma generate_filename_collision (used : List String) (info : ImageInfo)
    (h : baseFilename info.url ∈ used) :
    ∃ c, 1 ≤ c ∧
      generate_filename used info =
        (splitext (baseFilename info.url)).1 ++ "_" ++ decStr c ++
          (splitext (baseFilename info.url)).2 ∧
      ((splitext (baseFilename info.url)).1 ++ "_" ++ decStr c ++
          (splitext (baseFilename info.url)).2) ∉ used ∧
      ∀ j, 1 ≤ j → j < c →
        ((splitext (baseFilename info.url)).1 ++ "_" ++ decStr j ++
          (splitext (baseFilename info.url)).2) ∈ used := by
  rcases exists_fresh_suffix used (splitext (baseFilename info.url)).1
    (splitext (baseFilename info.url)).2 with ⟨c0, hc1, hc2, hc3⟩
  obtain ⟨ha, hb, hm⟩ := findFree_spec used (splitext (baseFilename info.url)).1
    (splitext (baseFilename info.url)).2 (used.length + 1) 1 ⟨c0, hc1, by omega, hc3⟩
  refine ⟨findFree used (splitext (baseFilename info.url)).1
    (splitext (baseFilename info.url)).2 (used.length + 1) 1, hb, ?_, ha, hm⟩
  rw [generate_filename, if_pos h]

lemma assignFilenames_nodup_aux (infos : List ImageInfo) : ∀ used : List String,
    (assignFilenames used infos).Nodup ∧
    ∀ f ∈ assignFilenames used infos, f ∉ used := by
  induction infos with
  | nil => intro used; simp [assignFilenames]
  | cons i rest ih =>
    intro used
    obtain ⟨hnd, hni⟩ := ih (generate_filename used i :: used)
    refine ⟨?_, ?_⟩
    · rw [assignFilenames, List.nodup_cons]
      exact ⟨fun hmem => hni _ hmem (List.mem_cons_self _ _), hnd⟩
    · intro f hf
      rw [assignFilenames, List.mem_cons] at hf
      rcases hf with rfl | hf
      · exact generate_filename_not_mem used i
      · exact fun hu => hni f hf (List.mem_cons_of_mem _ hu)

/-- C3: within a single run starting from an empty used set, with every
returned filename registered before the next call, no two descriptors ever
receive the same filename. -/
theorem generate_filename_injective_run (infos : List ImageInfo) :
    (assignFilenames [] infos).Nodup :=
  (assignFilenames_nodup_aux infos []).1

/-- Models Python's `str.endswith` for a single pattern. -/
def strEndsWith (s p : String) : Bool := p.data.isSuffixOf s.data

/-- Descriptor with the given url and empty metadata, as built by the passes. -/
def mkInfo (u : String) : ImageInfo := ⟨u, "", 0, "", [], ""⟩

lemma mem_dot_baseFilename (url : String) : '.' ∈ (baseFilename url).data := by
  rw [baseFilename, sanitizeName]
  apply List.mem_filter.mpr
  refine ⟨?_, by decide⟩
  rw [extName]
  by_cases h : ((defaultedName (rawName url)).data.contains '.') = true
  · rw [if_pos h]
    exact List.elem_iff.mp h
  · rw [if_neg h, String.data_append]
    exact List.mem_append_right _ (by decide)

lemma keptChar_baseFilename (url : String) :
    ∀ c ∈ (baseFilename url).data, keptChar c = true := by
  intro c hc
  rw [baseFilename, sanitizeName] at hc
  exact (List.mem_filter.mp hc).2

lemma decDigitChar_isDigit (n : Nat) : (decDigitChar n).isDigit = true := by
  match n with
  | 0 | 1 | 2 | 3 | 4 | 5 | 6 | 7 | 8 => rfl
  | n + 9 => rfl

lemma decDigitsAux_isDigit : ∀ fuel n, ∀ ch ∈ decDigitsAux fuel n, ch.isDigit = true := by
  intro fuel
  induction fuel with
  | zero => intro n ch hch; exact absurd hch (List.not_mem_nil ch)
  | succ fuel ih =>
    intro n ch hch
    by_cases h10 : n < 10
    · have he : decDigitsAux (fuel + 1) n = [decDigitChar n] := by
        show (if n < 10 then [decDigitChar n]
              else decDigitsAux fuel (n / 10) ++ [decDigitChar (n % 10)]) = _
        exact if_pos h10
      rw [he, List.mem_singleton] at hch
      exact hch ▸ decDigitChar_isDigit n
    · have he : decDigitsAux (fuel + 1) n =
          decDigitsAux fuel (n / 10) ++ [decDigitChar (n % 10)] := by
        show (if n < 10 then [decDigitChar n]
              else decDigitsAux fuel (n / 10) ++ [decDigitChar (n % 10)]) = _
        exact if_neg h10
      rw [he, List.mem_append] at hch
      rcases hch with hch | hch
      · exact ih (n / 10) ch hch
      · rw [List.mem_singleton] at hch
        exact hch ▸ decDigitChar_isDigit (n % 10)

lemma keptChar_of_isDigit (c : Char) (h : c.isDigit = true) : keptChar c = true := by
  simp [keptChar, pyIsAlnum, Char.isAlphanum, h]

lemma keptChar_append_parts (a b : String) (n : Nat)
    (hab : ∀ c ∈ a.data ++ b.data, keptChar c = true) :
    ∀ c ∈ (a ++ "_" ++ decStr n ++ b).data, keptChar c = true := by
  intro c hc
  simp only [String.data_append, List.append_assoc, List.mem_append] at hc
  rcases hc with hc | hc | hc | hc
  · exact hab c (List.mem_append_left _ hc)
  · rw [List.mem_singleton] at hc
    rw [hc]
    decide
  · exact keptChar_of_isDigit c (decDigitsAux_isDigit _ _ c hc)
  · exact hab c (List.mem_append_right _ hc)

lemma dot_append_parts (a b : String) (n : Nat) (hd : '.' ∈ a.data ++ b.data) :
    '.' ∈ (a ++ "_" ++ decStr n ++ b).data := by
  simp only [String.data_append, List.append_assoc, List.mem_append]
  rw [List.mem_append] at hd
  rcases hd with hd | hd
  · exact Or.inl hd
  · exact Or.inr (Or.inr (Or.inr hd))

lemma keptChar_generate_filename (used : List String) (info : ImageInfo) :
    ∀ c ∈ (generate_filename used info).data, keptChar c = true := by
  by_cases h : baseFilename info.url ∈ used
  · rw [generate_filename, if_pos h]
    apply keptChar_append_parts
    rw [splitext_data (baseFilename info.url)]
    exact keptChar_baseFilename info.url
  · rw [generate_filename, if_neg h]
    exact keptChar_baseFilename info.url

lemma dot_mem_generate_filename (used : List String) (info : ImageInfo) :
    '.' ∈ (generate_filename used info).data := by
  by_cases h : baseFilename info.url ∈ used
  · rw [generate_filename, if_pos h]
    apply dot_append_parts
    rw [splitext_data (baseFilename info.url)]
    exact mem_dot_baseFilename info.url
  · rw [generate_filename, if_neg h]
    exact mem_dot_baseFilename info.url

lemma ascii_class_of_keptChar (c : Char) (hk : keptChar c = true) (ha : c.toNat < 128) :
    (c.isAlphanum || c == '.' || c == '-' || c == '_') = true := by
  simp only [keptChar, Bool.or_eq_true] at hk
  rcases hk with ((hk | hk) | hk) | hk
  · simp only [pyIsAlnum, Bool.or_eq_true, Bool.and_eq_true, decide_eq_true_eq,
      beq_iff_eq, Nat.beq_eq_true_eq] at hk
    rcases hk with ((((((hk | hk) | hk) | hk) | hk) | hk) | hk) | hk
    · simp [hk]
    · exact absurd hk.1.1.1 (by omega)
    · exact absurd hk (by omega)
    · exact absurd hk (by omega)
    · exact absurd hk (by omega)
    · exact absurd hk (by omega)
    · exact absurd hk (by omega)
    · exact absurd hk (by omega)
  · simp [hk]
  · simp [hk]
  · simp [hk]

lemma filter_keptChar_jpg : List.filter keptChar ".jpg".data = ".jpg".data := by decide

/-- C4 (amended): every generated filename contains a `.` (hence an
extension), all its characters are Python-alphanumeric or `.`, `-`, `_`, and
every ASCII character in it lies in `[A-Za-z0-9._-]`; an empty path basename
falls back to `image.jpg`, and a name without a `.` gets `.jpg` appended. -/
theorem generate_filename_shape (used : List String) (info : ImageInfo) :
    '.' ∈ (generate_filename used info).data ∧
    (∀ c ∈ (generate_filename used info).data, keptChar c = true) ∧
    (∀ c ∈ (generate_filename used info).data, c.toNat < 128 →
      (c.isAlphanum || c == '.' || c == '-' || c == '_') = true) ∧
    (rawName info.url = "" → baseFilename info.url = "image.jpg") ∧
    (((defaultedName (rawName info.url)).data.contains '.') = false →
      strEndsWith (baseFilename info.url) ".jpg" = true) := by
  refine ⟨dot_mem_generate_filename used info, keptChar_generate_filename used info,
    ?_, ?_, ?_⟩
  · intro c hc ha
    exact ascii_class_of_keptChar c (keptChar_generate_filename used info c hc) ha
  · intro h
    rw [baseFilename, h]
    decide
  · intro h
    rw [baseFilename, extName, if_neg (by rw [h]; decide), sanitizeName, strEndsWith]
    show (".jpg".data.isSuffixOf
      (List.filter keptChar ((defaultedName (rawName info.url)) ++ ".jpg").data)) = true
    rw [String.data_append, List.filter_append, filter_keptChar_jpg,
      List.isSuffixOf_iff_suffix]
    exact ⟨_, rfl⟩

/-- Witness for C4 (amended): the fallback and append branches at concrete
urls whose path basename is empty, respectively has no dot. -/
theorem generate_filename_shape_witness :
    baseFilename (mkInfo "https://example.com/").url = "image.jpg" ∧
    strEndsWith (baseFilename (mkInfo "https://example.com/noext").url) ".jpg" = true :=
  ⟨(generate_filename_shape [] (mkInfo "https://example.com/")).2.2.2.1 (by decide),
   (generate_filename_shape [] (mkInfo "https://example.com/noext")).2.2.2.2 (by decide)⟩

/-- C4 counterexample: Python's `isalnum` accepts non-ASCII alphanumerics, so
the url `https://example.com/imgä.png` yields the filename `imgä.png`, whose
`ä` lies outside `[A-Za-z0-9._-]`. -/
theorem generate_filename_charset_counterexample :
    ¬ (∀ c ∈ (generate_filename [] (mkInfo "https://example.com/imgä.png")).data,
        (c.isAlphanum || c == '.' || c == '-' || c == '_') = true) := by decide

/-- C5: two descriptors whose urls both end in `photo.jpg`, processed in
order in the same run, receive `photo.jpg` then `photo_1.jpg`; in general a
colliding candidate receives the first unused integer suffix `_1`, `_2`, …
before the extension. -/
theorem filename_collision_first_unused :
    assignFilenames [] [mkInfo "https://example.com/a/photo.jpg",
        mkInfo "https://example.org/b/photo.jpg"] =
      ["photo.jpg", "photo_1.jpg"] ∧
    ∀ used info, baseFilename info.url ∈ used →
      ∃ c, 1 ≤ c ∧
        generate_filename used info =
          (splitext (baseFilename info.url)).1 ++ "_" ++ decStr c ++
            (splitext (baseFilename info.url)).2 ∧
        ((splitext (baseFilename info.url)).1 ++ "_" ++ decStr c ++
            (splitext (baseFilename info.url)).2) ∉ used ∧
        ∀ j, 1 ≤ j → j < c →
          ((splitext (baseFilename info.url)).1 ++ "_" ++ decStr j ++
            (splitext (baseFilename info.url)).2) ∈ used :=
  ⟨by decide, fun used info h => generate_filename_collision used info h⟩

/-- Witness for C5: the collision case applied at `photo.jpg` already used. -/
theorem filename_collision_first_unused_witness :
    ∃ c, 1 ≤ c ∧
      generate_filename ["photo.jpg"] (mkInfo "https://example.org/b/photo.jpg") =
        (splitext (baseFilename (mkInfo "https://example.org/b/photo.jpg").url)).1 ++
          "_" ++ decStr c ++
          (splitext (baseFilename (mkInfo "https://example.org/b/photo.jpg").url)).2 ∧
      ((splitext (baseFilename (mkInfo "https://example.org/b/photo.jpg").url)).1 ++
          "_" ++ decStr c ++
          (splitext (baseFilename (mkInfo "https://example.org/b/photo.jpg").url)).2) ∉
        ["photo.jpg"] ∧
      ∀ j, 1 ≤ j → j < c →
        ((splitext (baseFilename (mkInfo "https://example.org/b/photo.jpg").url)).1 ++
            "_" ++ decStr j ++
            (splitext (baseFilename (mkInfo "https://example.org/b/photo.jpg").url)).2) ∈
          ["photo.jpg"] :=
  filename_collision_first_unused.2 ["photo.jpg"]
    (mkInfo "https://example.org/b/photo.jpg") (by decide)

/-- Models Python's `str.isdigit` on ASCII: nonempty and all decimal digits.
(Python also accepts some non-ASCII digit characters; no theorem here
depends on those.) -/
def pyIsDigit (s : String) : Bool :=
  !s.isEmpty && s.data.all (fun c => decide ('0' ≤ c) && decide (c ≤ '9'))

/-- Splits a character list at every occurrence of `c`, keeping empty pieces,
as Python's `str.split(sep)` does. -/
def splitOnChar (c : Char) : List Char → List (List Char)
  | [] => [[]]
  | x :: rest =>
    if x = c then [] :: splitOnChar c rest
    else match splitOnChar c rest with
      | [] => [[x]]
      | y :: ys => (x :: y) :: ys

/-- Models Python's `str.split(sep)` for a one-character separator. -/
def pySplit (s : String) (c : Char) : List String :=
  (splitOnChar c s.data).map (fun l => ⟨l⟩)

/-- Models Python's `str.strip()`: remove leading and trailing whitespace. -/
def pyStrip (s : String) : String :=
  ⟨((s.data.dropWhile Char.isWhitespace).reverse.dropWhile Char.isWhitespace).reverse⟩

/-- Gallery-id loop of `extract_shortcode_images` (dl.py lines 180-194) over
the already-split id tokens: strip each token, keep it only when it is
numeric and the Media Resolver returns a url for it.  `resolve` models
`get_media_url_by_id` (dl.py lines 216-224), whose `try/except` returns
`None` on any request failure (network error, non-2xx status via
`raise_for_status`, malformed JSON body) instead of raising. -/
def galleryShortcodeImages (resolve : String → Option String)
    (post_title : String) (post_id : Int) : List String → List ImageInfo
  | [] => []
  | tok :: rest =>
    (if pyIsDigit (pyStrip tok) then
      match resolve (pyStrip tok) with
      | some mediaUrl =>
          [⟨mediaUrl, post_title, post_id, "", ["shortcode-image"], pyStrip tok⟩]
      | none => []
     else []) ++ galleryShortcodeImages resolve post_title post_id rest

/-- dl.py line 180: the matched `ids` capture is split on commas, then each
token is processed by the loop above (`str.strip` is modelled by
`String.trim`). -/
def galleryImages (resolve : String → Option String) (post_title : String)
    (post_id : Int) (idsStr : String) : List ImageInfo :=
  galleryShortcodeImages resolve post_title post_id (pySplit idsStr ',')

/-- The resolver of the spec's scenario: media 12 resolves, everything else
(media 34 in particular) fails. -/
def resolveExample : String → Option String :=
  fun s => if s = "12" then some "https://example.com/img12.png" else none

lemma galleryShortcodeImages_length (resolve : String → Option String)
    (pt : String) (pid : Int) (toks : List String) :
    (galleryShortcodeImages resolve pt pid toks).length =
      (toks.filter (fun t => pyIsDigit (pyStrip t) && (resolve (pyStrip t)).isSome)).length := by
  induction toks with
  | nil => rfl
  | cons t rest ih =>
    show ((if pyIsDigit (pyStrip t) then
        match resolve (pyStrip t) with
        | some mediaUrl => ([⟨mediaUrl, pt, pid, "", ["shortcode-image"], pyStrip t⟩] : List ImageInfo)
        | none => []
       else []) ++ galleryShortcodeImages resolve pt pid rest).length =
      ((t :: rest).filter (fun t => pyIsDigit (pyStrip t) && (resolve (pyStrip t)).isSome)).length
    rw [List.length_append, ih, List.filter_cons]
    by_cases hd : pyIsDigit (pyStrip t) = true
    · cases hr : resolve (pyStrip t) with
      | none => simp [hd, hr]
      | some u =>
        simp only [hd, hr, List.length_cons]
        simp [Nat.add_comm]
    · simp [hd]

lemma galleryShortcodeImages_mem (resolve : String → Option String)
    (pt : String) (pid : Int) (toks : List String) :
    ∀ img ∈ galleryShortcodeImages resolve pt pid toks,
      ∃ tok ∈ toks, pyIsDigit (pyStrip tok) = true ∧
        resolve (pyStrip tok) = some img.url ∧ img.img_id = pyStrip tok ∧
        img.img_class = ["shortcode-image"] ∧
        img.post_title = pt ∧ img.post_id = pid := by
  induction toks with
  | nil => intro img h; exact absurd h (List.not_mem_nil img)
  | cons t rest ih =>
    intro img h
    rw [show galleryShortcodeImages resolve pt pid (t :: rest) =
        (if pyIsDigit (pyStrip t) then
          match resolve (pyStrip t) with
          | some mediaUrl => ([⟨mediaUrl, pt, pid, "", ["shortcode-image"], pyStrip t⟩] : List ImageInfo)
          | none => []
         else []) ++ galleryShortcodeImages resolve pt pid rest from rfl,
      List.mem_append] at h
    rcases h with h | h
    · by_cases hd : pyIsDigit (pyStrip t) = true
      · rw [if_pos hd] at h
        cases hr : resolve (pyStrip t) with
        | none => rw [hr] at h; exact absurd h (List.not_mem_nil img)
        | some u =>
          rw [hr, List.mem_singleton] at h
          exact ⟨t, List.mem_cons_self _ _, hd, by rw [h, hr], by rw [h], by rw [h],
            by rw [h], by rw [h]⟩
      · rw [if_neg hd] at h
        exact absurd h (List.not_mem_nil img)
    · rcases ih img h with ⟨tok, htok, rest'⟩
      exact ⟨tok, List.mem_cons_of_mem _ htok, rest'⟩

/-- C6: the gallery-id loop produces exactly one descriptor per
comma-separated token that is numeric (after stripping) and whose Media
Resolver lookup succeeds; every produced descriptor carries the resolved url
and its id; and concretely `ids="12,34"` with media 12 resolving and media 34
failing yields exactly the one descriptor for id 12. -/
theorem gallery_shortcode_per_id (resolve : String → Option String)
    (pt : String) (pid : Int) (idsStr : String) :
    (galleryImages resolve pt pid idsStr).length =
      ((pySplit idsStr ',').filter
        (fun t => pyIsDigit (pyStrip t) && (resolve (pyStrip t)).isSome)).length ∧
    (∀ img ∈ galleryImages resolve pt pid idsStr,
      ∃ tok ∈ pySplit idsStr ',', pyIsDigit (pyStrip tok) = true ∧
        resolve (pyStrip tok) = some img.url ∧ img.img_id = pyStrip tok ∧
        img.img_class = ["shortcode-image"] ∧
        img.post_title = pt ∧ img.post_id = pid) ∧
    galleryImages resolveExample "t" 5 "12,34" =
      [⟨"https://example.com/img12.png", "t", 5, "", ["shortcode-image"], "12"⟩] :=
  ⟨galleryShortcodeImages_length resolve pt pid (pySplit idsStr ','),
   galleryShortcodeImages_mem resolve pt pid (pySplit idsStr ','),
   by decide⟩

/-- Witness for C6: the membership conjunct applied to the scenario's single
descriptor. -/
theorem gallery_shortcode_per_id_witness :
    ∃ tok ∈ pySplit "12,34" ',', pyIsDigit (pyStrip tok) = true ∧
      resolveExample (pyStrip tok) =
        some (ImageInfo.url ⟨"https://example.com/img12.png", "t", 5, "",
          ["shortcode-image"], "12"⟩) ∧
      ImageInfo.img_id ⟨"https://example.com/img12.png", "t", 5, "",
          ["shortcode-image"], "12"⟩ = pyStrip tok ∧
      ImageInfo.img_class ⟨"https://example.com/img12.png", "t", 5, "",
          ["shortcode-image"], "12"⟩ = ["shortcode-image"] ∧
      ImageInfo.post_title ⟨"https://example.com/img12.png", "t", 5, "",
          ["shortcode-image"], "12"⟩ = "t" ∧
      ImageInfo.post_id ⟨"https://example.com/img12.png", "t", 5, "",
          ["shortcode-image"], "12"⟩ = 5 :=
  (gallery_shortcode_per_id resolveExample "t" 5 "12,34").2.1
    ⟨"https://example.com/img12.png", "t", 5, "", ["shortcode-image"], "12"⟩
    (by decide)

/-- An HTTP response as `download_image` consumes it: the value of
`response.headers.get('content-type', '')` and the streamed body. -/
structure HttpResp where
  contentType : String
  body : String
  deriving DecidableEq, Repr

/-- Run-scoped downloader state: `self.used_filenames`,
`self.downloaded_images` (both process-local sets, modelled as lists) and the
filenames present in the images folder (checked by `filepath.exists()`). -/
structure DState where
  used_filenames : List String
  downloaded_images : List String
  disk : List String
  deriving DecidableEq, Repr

/-- `download_image` (dl.py lines 300-341): generate (and thereby register)
the filename first; skip as success when the file exists on disk or the url
was already downloaded; then fetch (`fetch` returns `none` for a request
exception, including `raise_for_status` on a non-2xx response, in which case
the `except` block reports failure); a response whose content-type does not
start with `image/` is a failure without a write; otherwise the body is
written and the url recorded. -/
def download_image (fetch : String → Option HttpResp) (st : DState)
    (info : ImageInfo) : Bool × DState :=
  if generate_filename st.used_filenames info ∈ st.disk then
    (true, { st with used_filenames :=
      generate_filename st.used_filenames info :: st.used_filenames })
  else if info.url ∈ st.downloaded_images then
    (true, { st with used_filenames :=
      generate_filename st.used_filenames info :: st.used_filenames })
  else match fetch info.url with
    | none =>
      (false, { st with used_filenames :=
        generate_filename st.used_filenames info :: st.used_filenames })
    | some r =>
      if strStartsWith r.contentType "image/" then
        (true, { st with
            used_filenames := generate_filename st.used_filenames info :: st.used_filenames
            downloaded_images := info.url :: st.downloaded_images
            disk := generate_filename st.used_filenames info :: st.disk })
      else
        (false, { st with used_filenames :=
          generate_filename st.used_filenames info :: st.used_filenames })

/-- C7: when the request is reached and answers with a content-type that does
not start with `image/`, `download_image` reports failure, writes no file,
and does not record the url into `downloaded_images`. -/
theorem download_non_image_failure (fetch : String → Option HttpResp)
    (st : DState) (info : ImageInfo) (r : HttpResp)
    (hdisk : generate_filename st.used_filenames info ∉ st.disk)
    (hdl : info.url ∉ st.downloaded_images)
    (hf : fetch info.url = some r)
    (hct : strStartsWith r.contentType "image/" = false) :
    (download_image fetch st info).1 = false ∧
    (download_image fetch st info).2.disk = st.disk ∧
    (download_image fetch st info).2.downloaded_images = st.downloaded_images := by
  simp [download_image, hdisk, hdl, hf, hct]

/-- Witness for C7: a `text/html` response at a concrete input. -/
theorem download_non_image_failure_witness :
    (download_image (fun _ => some ⟨"text/html", "<html>"⟩) ⟨[], [], []⟩
        (mkInfo "https://example.com/a.png")).1 = false ∧
    (download_image (fun _ => some ⟨"text/html", "<html>"⟩) ⟨[], [], []⟩
        (mkInfo "https://example.com/a.png")).2.disk = [] ∧
    (download_image (fun _ => some ⟨"text/html", "<html>"⟩) ⟨[], [], []⟩
        (mkInfo "https://example.com/a.png")).2.downloaded_images = [] :=
  download_non_image_failure (fun _ => some ⟨"text/html", "<html>"⟩) ⟨[], [], []⟩
    (mkInfo "https://example.com/a.png") ⟨"text/html", "<html>"⟩
    (by decide) (by decide) rfl (by decide)

/-- C10: `download_image` registers the generated filename into
`used_filenames` before the exists/downloaded checks and the request, so the
name is consumed in every outcome; a later descriptor whose candidate name
equals that filename therefore takes the collision branch and receives a
suffixed name. -/
theorem download_consumes_filename (fetch : String → Option HttpResp)
    (st : DState) (info : ImageInfo) :
    (download_image fetch st info).2.used_filenames =
      generate_filename st.used_filenames info :: st.used_filenames ∧
    ∀ info' : ImageInfo,
      baseFilename info'.url = generate_filename st.used_filenames info →
      ∃ c, 1 ≤ c ∧
        generate_filename (download_image fetch st info).2.used_filenames info' =
          (splitext (baseFilename info'.url)).1 ++ "_" ++ decStr c ++
            (splitext (baseFilename info'.url)).2 := by
  have husd : (download_image fetch st info).2.used_filenames =
      generate_filename st.used_filenames info :: st.used_filenames := by
    by_cases h1 : generate_filename st.used_filenames info ∈ st.disk
    · simp [download_image, h1]
    · by_cases h2 : info.url ∈ st.downloaded_images
      · simp [download_image, h1, h2]
      · cases hf : fetch info.url with
        | none => simp [download_image, h1, h2, hf]
        | some r =>
          by_cases h3 : strStartsWith r.contentType "image/" = true
          · simp [download_image, h1, h2, hf, h3]
          · simp [download_image, h1, h2, hf, h3]
  refine ⟨husd, ?_⟩
  intro info' heq
  have hmem : baseFilename info'.url ∈ (download_image fetch st info).2.used_filenames := by
    rw [husd, heq]
    exact List.mem_cons_self _ _
  rcases generate_filename_collision _ info' hmem with ⟨c, hc1, hc2, _, _⟩
  exact ⟨c, hc1, hc2⟩

/-- Witness for C10: a second descriptor with the same basename after a
failed download still receives a suffixed name. -/
theorem download_consumes_filename_witness :
    ∃ c, 1 ≤ c ∧
      generate_filename
        (download_image (fun _ => none) ⟨[], [], []⟩
          (mkInfo "https://example.com/a/photo.jpg")).2.used_filenames
        (mkInfo "https://example.org/b/photo.jpg") =
      (splitext (baseFilename (mkInfo "https://example.org/b/photo.jpg").url)).1 ++
        "_" ++ decStr c ++
        (splitext (baseFilename (mkInfo "https://example.org/b/photo.jpg").url)).2 :=
  (download_consumes_filename (fun _ => none) ⟨[], [], []⟩
    (mkInfo "https://example.com/a/photo.jpg")).2
    (mkInfo "https://example.org/b/photo.jpg") (by decide)

/-- dl.py line 34: the fixed page size sent as `per_page` on every request
(the API's maximum). -/
def perPage : Nat := 100

/-- The pagination loop of `get_all_posts` (dl.py lines 38-68).  `server q`
models one request for page `q`: `none` is a `requests.RequestException`
(network error or `raise_for_status` on a non-2xx response), `some (ps, t)`
a successful page whose parsed body is `ps` with
`int(headers.get('X-WP-TotalPages', 1)) = t`.  The result pairs the
accumulated posts with the log of issued requests as (page, per_page).
The Python loop is unbounded; theorems supply sufficient fuel, and the
fuel-exhaustion branch is never reached under their hypotheses. -/
def getAllPostsGo {α : Type} (server : Nat → Option (List α × Nat)) :
    Nat → Nat → List α → List (Nat × Nat) → List α × List (Nat × Nat)
  | 0, _, acc, log => (acc, log)
  | fuel + 1, page, acc, log =>
    match server page with
    | none => (acc, log ++ [(page, perPage)])
    | some (ps, total) =>
      if ps.isEmpty then (acc, log ++ [(page, perPage)])
      else if total ≤ page then (acc ++ ps, log ++ [(page, perPage)])
      else getAllPostsGo server fuel (page + 1) (acc ++ ps) (log ++ [(page, perPage)])

/-- `get_all_posts` (dl.py lines 30-71): start at page 1 with nothing
accumulated. -/
def get_all_posts {α : Type} (server : Nat → Option (List α × Nat))
    (fuel : Nat) : List α × List (Nat × Nat) :=
  getAllPostsGo server fuel 1 [] []

/-- The posts of one page as the accumulator sees them (empty on error). -/
def pagePosts {α : Type} (server : Nat → Option (List α × Nat)) (q : Nat) :
    List α :=
  match server q with
  | some pr => pr.1
  | none => []

/-- Concatenation of the pages 1..p in order. -/
def postsUpTo {α : Type} (server : Nat → Option (List α × Nat)) (p : Nat) :
    List α :=
  ((List.range' 1 p).map (pagePosts server)).flatten

/-- The request log of a run that issued requests for pages 1..p. -/
def requestLog (p : Nat) : List (Nat × Nat) :=
  (List.range' 1 p).map (fun q => (q, perPage))

lemma getAllPostsGo_step {α : Type} (server : Nat → Option (List α × Nat))
    (fuel page : Nat) (acc : List α) (log : List (Nat × Nat))
    (ps : List α) (total : Nat) (hs : server page = some (ps, total))
    (hne : ps ≠ []) (hlt : page < total) :
    getAllPostsGo server (fuel + 1) page acc log =
      getAllPostsGo server fuel (page + 1) (acc ++ ps) (log ++ [(page, perPage)]) := by
  have h1 : ps.isEmpty = false := by
    cases ps with
    | nil => exact absurd rfl hne
    | cons a l => rfl
  have h2 : ¬(total ≤ page) := Nat.not_le.mpr hlt
  simp [getAllPostsGo, hs, h1, h2]

lemma getAllPostsGo_run {α : Type} (server : Nat → Option (List α × Nat)) :
    ∀ (n fuel page : Nat) (acc : List α) (log : List (Nat × Nat)),
    n ≤ fuel →
    (∀ q, page ≤ q → q < page + n →
      ∃ ps total, server q = some (ps, total) ∧ ps ≠ [] ∧ q < total) →
    getAllPostsGo server fuel page acc log =
      getAllPostsGo server (fuel - n) (page + n)
        (acc ++ ((List.range' page n).map (pagePosts server)).flatten)
        (log ++ (List.range' page n).map (fun q => (q, perPage))) := by
  intro n
  induction n with
  | zero => intro fuel page acc log _ _; simp
  | succ n ih =>
    intro fuel page acc log hfuel hok
    obtain ⟨ps, total, hs, hne, hlt⟩ := hok page (Nat.le_refl page) (by omega)
    obtain ⟨fuel', rfl⟩ : ∃ f, fuel = f + 1 := ⟨fuel - 1, by omega⟩
    have hok' : ∀ q, page + 1 ≤ q → q < (page + 1) + n →
        ∃ ps total, server q = some (ps, total) ∧ ps ≠ [] ∧ q < total := by
      intro q h1 h2
      exact hok q (by omega) (by omega)
    rw [getAllPostsGo_step server fuel' page acc log ps total hs hne hlt,
      ih fuel' (page + 1) (acc ++ ps) (log ++ [(page, perPage)]) (by omega) hok']
    have harith1 : fuel' + 1 - (n + 1) = fuel' - n := by omega
    have harith2 : page + (n + 1) = (page + 1) + n := by omega
    have hjoin : ((List.range' page (n + 1)).map (pagePosts server)).flatten =
        ps ++ ((List.range' (page + 1) n).map (pagePosts server)).flatten := by
      rw [List.range'_succ]
      simp [pagePosts, hs]
    have hlog : (List.range' page (n + 1)).map (fun q => (q, perPage)) =
        (page, perPage) :: (List.range' (page + 1) n).map (fun q => (q, perPage)) := by
      rw [List.range'_succ]
      rfl
    rw [harith1, harith2, hjoin, hlog]
    simp

/-- C8: pagination requests consecutive pages starting at 1, each at the
fixed page size 100; when every page before `p` succeeds nonempty with more
pages advertised, the loop reaches page `p` and stops there exactly when the
request errors (returning the posts accumulated so far), when the page is
empty, or when the page number has reached the advertised total (returning
its posts as well); the request log is pages 1..p at per_page = 100 in every
case. -/
theorem get_all_posts_pagination {α : Type} (server : Nat → Option (List α × Nat))
    (fuel p : Nat) (hp : 1 ≤ p) (hfuel : p ≤ fuel)
    (hreach : ∀ q, 1 ≤ q → q < p →
      ∃ ps total, server q = some (ps, total) ∧ ps ≠ [] ∧ q < total) :
    (server p = none →
      get_all_posts server fuel = (postsUpTo server (p - 1), requestLog p)) ∧
    (∀ total, server p = some ([], total) →
      get_all_posts server fuel = (postsUpTo server (p - 1), requestLog p)) ∧
    (∀ ps total, server p = some (ps, total) → ps ≠ [] → total ≤ p →
      get_all_posts server fuel = (postsUpTo server (p - 1) ++ ps, requestLog p)) := by
  obtain ⟨k, rfl⟩ : ∃ k, p = k + 1 := ⟨p - 1, by omega⟩
  have hrun := getAllPostsGo_run server k fuel 1 [] []
    (by omega) (by intro q h1 h2; exact hreach q h1 (by omega))
  have hpage : 1 + k = k + 1 := by omega
  rw [hpage] at hrun
  obtain ⟨g, hg⟩ : ∃ g, fuel - k = g + 1 := ⟨fuel - k - 1, by omega⟩
  rw [hg] at hrun
  have hlogp : List.map (fun q => (q, perPage)) (List.range' 1 k) ++ [(k + 1, perPage)] =
      List.map (fun q => (q, perPage)) (List.range' 1 (k + 1)) := by
    rw [List.range'_1_concat, List.map_append]
    simp [Nat.add_comm]
  refine ⟨?_, ?_, ?_⟩
  · intro hnone
    rw [get_all_posts, hrun]
    simp only [getAllPostsGo, hnone, List.nil_append]
    rw [postsUpTo, requestLog, Nat.add_sub_cancel, ← hlogp]
  · intro total hempty
    rw [get_all_posts, hrun]
    simp only [getAllPostsGo, hempty, List.isEmpty_nil, List.nil_append, if_true]
    rw [postsUpTo, requestLog, Nat.add_sub_cancel, ← hlogp]
  · intro ps total hs hne hle
    have h1 : ps.isEmpty = false := by
      cases ps with
      | nil => exact absurd rfl hne
      | cons a l => rfl
    rw [get_all_posts, hrun]
    simp only [getAllPostsGo, hs, h1, Bool.false_eq_true, if_false, if_pos hle,
      List.nil_append]
    rw [postsUpTo, requestLog, Nat.add_sub_cancel, ← hlogp]

/-- The server of the C8 witness: page 1 succeeds with two posts and three
pages advertised, every later page errors. -/
def serverExample : Nat → Option (List Nat × Nat) :=
  fun q => if q = 1 then some ([10, 20], 3) else none

/-- Witness for C8: a request error on page 2 stops pagination and keeps the
posts of page 1; both requests were issued at per_page = 100. -/
theorem get_all_posts_pagination_witness :
    get_all_posts serverExample 5 = ([10, 20], [(1, 100), (2, 100)]) := by
  have h := (get_all_posts_pagination serverExample 5 2 (by omega) (by omega)
    (by
      intro q h1 h2
      have hq : q = 1 := by omega
      subst hq
      exact ⟨[10, 20], 3, rfl, by decide, by decide⟩)).1 rfl
  rw [h]
  decide

/-- `extract_images_from_content` (dl.py lines 73-125): a missing (`None`) or
empty rendered content returns no descriptors before any pass runs
(`if not content_html: return []`); otherwise the inline-tag pass, the
Gutenberg block pass and the shortcode pass run and their results are
concatenated.  HTML parsing (BeautifulSoup) and the regex scans are not
embedded, so the three passes are parameters; the theorem quantifies over
them. -/
def extract_images_from_content
    (inlinePass blockPass shortcodePass : String → List ImageInfo)
    (content_html : Option String) : List ImageInfo :=
  match content_html with
  | none => []
  | some s =>
    if s = "" then []
    else inlinePass s ++ blockPass s ++ shortcodePass s

/-- C9: for absent (`None`) or empty post content the extractor returns the
empty sequence, whatever the three passes would do. -/
theorem empty_content_extracts_nothing
    (inlinePass blockPass shortcodePass : String → List ImageInfo) :
    extract_images_from_content inlinePass blockPass shortcodePass none = [] ∧
    extract_images_from_content inlinePass blockPass shortcodePass (some "") = [] :=
  ⟨rfl, rfl⟩

end DlPy
